import Mathlib

/-!
Verification of the strip-ts core (src/strip-ts.ts) against its specification.

The development shallowly embeds the Babel AST fragment the code manipulates:
`Node`/`NodeList` mirror the node kinds of the relevant visitors; `other` stands
for every node kind none of the visitors handles (the code leaves such nodes
alone by construction).  `eraseNode`/`eraseList` embed the ts/tsx traversal of
`stripTSFromString` (TSTypeAnnotation, TSInterfaceDeclaration,
TSTypeAliasDeclaration, TSTypeParameterInstantiation removed;
TSAsExpression/TSNonNullExpression replaced with their `expression`);
`eraseNodeVue`/`eraseListVue` embed the vue-branch traversal, whose visitor set
omits TSTypeParameterInstantiation.  `plainUses`/`jsxUses`/`keepSpecifier`/
`pruneNode` embed `removeUnusedImports`, and the `jsCollapseNewlines` /
`jsStripLeadingBlankLines` functions embed the two regex clean-ups
`replace(/\n\x7b3,\x7d/g, "\n\n")` and `replace(/^\s*\n/, "")`.

Modelling notes, each traceable to the source:
* Babel's `Identifier` visitor fires on every identifier node, including
  binding positions and member-expression properties; `plainUsesNode` therefore
  collects the name of every `ident` node.
* `path.skip()` on `ImportDeclaration` during use collection means an import's
  own specifier names never count as uses; in the model the specifiers are
  plain data carried by `importDecl`, so they contribute nothing to either set.
* Import declarations only occur as top-level statements under Babel's
  grammar, so the pruning traversal is modelled on the statement list (and on
  the children of `other` nodes); specifier-bearing nodes cannot occur below
  expressions.
-/

inductive SpecifierKind where
  | importDefaultSpecifier
  | importSpecifier
  | importNamespaceSpecifier
deriving DecidableEq, Repr

structure ImportSpecifier where
  kind : SpecifierKind
  localName : String
deriving DecidableEq, Repr

mutual

inductive Node where
  | ident (name : String) (ann : NodeList) : Node
  | jsxIdent (name : String) : Node
  | jsxMember (obj : Node) (prop : Node) : Node
  | importDecl (source : String) (specifiers : List ImportSpecifier) : Node
  | tsTypeAnn (children : NodeList) : Node
  | tsInterfaceDeclaration (name : String) (children : NodeList) : Node
  | tsTypeAliasDeclaration (name : String) (children : NodeList) : Node
  | tsTypeParameterInstantiation (children : NodeList) : Node
  | tsAsExpression (expr : Node) (ty : NodeList) : Node
  | tsNonNullExpression (expr : Node) : Node
  | other (kind : String) (children : NodeList) : Node

inductive NodeList where
  | nil : NodeList
  | cons (head : Node) (tail : NodeList) : NodeList

end

/-- Append on statement lists. -/
def nlApp : NodeList → NodeList → NodeList
  | .nil, r => r
  | .cons h t, r => .cons h (nlApp t r)

/-- Top-level membership of a statement in a statement list. -/
def nlMem (n : Node) : NodeList → Prop
  | .nil => False
  | .cons h t => h = n ∨ nlMem n t

mutual

/-- The ts/tsx erasure traversal of `stripTSFromString` (strip-ts.ts lines
217-239): `TSTypeAnnotation`, `TSInterfaceDeclaration`,
`TSTypeAliasDeclaration` and `TSTypeParameterInstantiation` are removed
(`path.remove()`); `TSAsExpression` and `TSNonNullExpression` are replaced by
their `expression` child (`path.replaceWith`), which Babel then revisits, so
nested wrappers unwrap fully.  `none` means the node was removed. -/
def eraseNode : Node → Option Node
  | .ident name ann => some (.ident name (eraseList ann))
  | .jsxIdent name => some (.jsxIdent name)
  | .jsxMember obj prop =>
    match eraseNode obj, eraseNode prop with
    | some o, some p => some (.jsxMember o p)
    | _, _ => none
  | .importDecl src specs => some (.importDecl src specs)
  | .tsTypeAnn _ => none
  | .tsInterfaceDeclaration _ _ => none
  | .tsTypeAliasDeclaration _ _ => none
  | .tsTypeParameterInstantiation _ => none
  | .tsAsExpression e _ => eraseNode e
  | .tsNonNullExpression e => eraseNode e
  | .other kind children => some (.other kind (eraseList children))

def eraseList : NodeList → NodeList
  | .nil => .nil
  | .cons h t =>
    match eraseNode h with
    | some h2 => .cons h2 (eraseList t)
    | none => eraseList t

end

mutual

/-- The vue-branch erasure traversal of `stripTSFromString` (strip-ts.ts lines
308-326).  Its visitor set has no `TSTypeParameterInstantiation` handler, so
such nodes stay in the tree (their children are still traversed). -/
def eraseNodeVue : Node → Option Node
  | .ident name ann => some (.ident name (eraseListVue ann))
  | .jsxIdent name => some (.jsxIdent name)
  | .jsxMember obj prop =>
    match eraseNodeVue obj, eraseNodeVue prop with
    | some o, some p => some (.jsxMember o p)
    | _, _ => none
  | .importDecl src specs => some (.importDecl src specs)
  | .tsTypeAnn _ => none
  | .tsInterfaceDeclaration _ _ => none
  | .tsTypeAliasDeclaration _ _ => none
  | .tsTypeParameterInstantiation cs => some (.tsTypeParameterInstantiation (eraseListVue cs))
  | .tsAsExpression e _ => eraseNodeVue e
  | .tsNonNullExpression e => eraseNodeVue e
  | .other kind children => some (.other kind (eraseListVue children))

def eraseListVue : NodeList → NodeList
  | .nil => .nil
  | .cons h t =>
    match eraseNodeVue h with
    | some h2 => .cons h2 (eraseListVue t)
    | none => eraseListVue t

end

mutual

/-- True when the tree contains none of the constructs the ts/tsx visitor set
handles (the erasure-relevant constructs). -/
def noTSNode : Node → Bool
  | .ident _ ann => noTSList ann
  | .jsxIdent _ => true
  | .jsxMember obj prop => noTSNode obj && noTSNode prop
  | .importDecl _ _ => true
  | .tsTypeAnn _ => false
  | .tsInterfaceDeclaration _ _ => false
  | .tsTypeAliasDeclaration _ _ => false
  | .tsTypeParameterInstantiation _ => false
  | .tsAsExpression _ _ => false
  | .tsNonNullExpression _ => false
  | .other _ cs => noTSList cs

def noTSList : NodeList → Bool
  | .nil => true
  | .cons h t => noTSNode h && noTSList t

end

mutual

/-- True when the tree contains none of the constructs the vue-branch visitor
set handles: type annotations, interface declarations, type-alias
declarations, and the two assertion wrappers.  `TSTypeParameterInstantiation`
nodes are allowed (the vue branch keeps them), but their children are still
checked. -/
def noTSVueNode : Node → Bool
  | .ident _ ann => noTSVueList ann
  | .jsxIdent _ => true
  | .jsxMember obj prop => noTSVueNode obj && noTSVueNode prop
  | .importDecl _ _ => true
  | .tsTypeAnn _ => false
  | .tsInterfaceDeclaration _ _ => false
  | .tsTypeAliasDeclaration _ _ => false
  | .tsTypeParameterInstantiation cs => noTSVueList cs
  | .tsAsExpression _ _ => false
  | .tsNonNullExpression _ => false
  | .other _ cs => noTSVueList cs

def noTSVueList : NodeList → Bool
  | .nil => true
  | .cons h t => noTSVueNode h && noTSVueList t

end

/-! ## The import-liveness analyzer (`removeUnusedImports`, lines 17-143) -/

mutual

/-- Use collection, first traversal of `removeUnusedImports` (lines 62-79):
every `Identifier` contributes its name (Babel fires the visitor on binding
positions and member properties too); `JSXIdentifier`s are collected
separately; a `JSXMemberExpression` whose object is a `JSXIdentifier`
additionally records that object name as a plain use; `path.skip()` keeps the
walk out of import declarations. -/
def plainUsesNode : Node → List String
  | .ident name ann => name :: plainUsesList ann
  | .jsxIdent _ => []
  | .jsxMember obj prop =>
    (match obj with
     | .jsxIdent n => [n]
     | _ => []) ++ (plainUsesNode obj ++ plainUsesNode prop)
  | .importDecl _ _ => []
  | .tsTypeAnn cs => plainUsesList cs
  | .tsInterfaceDeclaration _ cs => plainUsesList cs
  | .tsTypeAliasDeclaration _ cs => plainUsesList cs
  | .tsTypeParameterInstantiation cs => plainUsesList cs
  | .tsAsExpression e ty => plainUsesNode e ++ plainUsesList ty
  | .tsNonNullExpression e => plainUsesNode e
  | .other _ cs => plainUsesList cs

def plainUsesList : NodeList → List String
  | .nil => []
  | .cons h t => plainUsesNode h ++ plainUsesList t

end

mutual

/-- The `jsxIdentifiers` half of the same traversal. -/
def jsxUsesNode : Node → List String
  | .ident _ ann => jsxUsesList ann
  | .jsxIdent name => [name]
  | .jsxMember obj prop => jsxUsesNode obj ++ jsxUsesNode prop
  | .importDecl _ _ => []
  | .tsTypeAnn cs => jsxUsesList cs
  | .tsInterfaceDeclaration _ cs => jsxUsesList cs
  | .tsTypeAliasDeclaration _ cs => jsxUsesList cs
  | .tsTypeParameterInstantiation cs => jsxUsesList cs
  | .tsAsExpression e ty => jsxUsesNode e ++ jsxUsesList ty
  | .tsNonNullExpression e => jsxUsesNode e
  | .other _ cs => jsxUsesList cs

def jsxUsesList : NodeList → List String
  | .nil => []
  | .cons h t => jsxUsesNode h ++ jsxUsesList t

end

/-- Specifier liveness test, from the `specifiers.forEach` of
`removeUnusedImports` (lines 93-120): a default specifier named `React` with
no plain-identifier use is dropped even when JSX uses exist; otherwise a
specifier of any kind survives iff its local name is in `usedIdentifiers` or
in `jsxIdentifiers`. -/
def keepSpecifier (usedIdentifiers jsxIdentifiers : List String) (s : ImportSpecifier) : Bool :=
  match s.kind with
  | .importDefaultSpecifier =>
    let isUsed := usedIdentifiers.contains s.localName
    let isUsedAsJSX := jsxIdentifiers.contains s.localName
    if s.localName == "React" && !isUsed then false
    else isUsed || isUsedAsJSX
  | .importSpecifier => usedIdentifiers.contains s.localName || jsxIdentifiers.contains s.localName
  | .importNamespaceSpecifier =>
    usedIdentifiers.contains s.localName || jsxIdentifiers.contains s.localName

mutual

/-- Second traversal of `removeUnusedImports` (lines 82-130): a zero-specifier
declaration is returned untouched; otherwise the surviving specifiers are those
passing `keepSpecifier`, in their original order; a declaration with no
survivor is removed (`path.remove()`). -/
def pruneNode (used jsx : List String) : Node → Option Node
  | .importDecl src specs =>
    if specs.isEmpty then some (.importDecl src specs)
    else
      let kept := specs.filter (keepSpecifier used jsx)
      if kept.isEmpty then none else some (.importDecl src kept)
  | .other kind cs => some (.other kind (pruneList used jsx cs))
  | n => some n

def pruneList (used jsx : List String) : NodeList → NodeList
  | .nil => .nil
  | .cons h t =>
    match pruneNode used jsx h with
    | some h2 => .cons h2 (pruneList used jsx t)
    | none => pruneList used jsx t

end

/-- `removeUnusedImports` at the tree level: collect both use sets, then prune
every import declaration against them. -/
def removeUnusedImportsAst (program : NodeList) : NodeList :=
  pruneList (plainUsesList program) (jsxUsesList program) program

/-- The erase-then-prune pipeline of `stripTSFromString` for ts/tsx inputs
with `removeUnusedImports: true` (lines 217-244), at the tree level. -/
def eraseAndPruneAst (program : NodeList) : NodeList :=
  removeUnusedImportsAst (eraseList program)

/-! ## The textual clean-ups (lines 132-137 and 244-248)

`generate` is followed by `replace(/\n\x7b3,\x7d/g, "\n\n")` (a maximal run of
three or more newline characters becomes exactly two) and then
`replace(/^\s*\n/, "")` (the leading whitespace run is removed up to and
including its last newline, when it contains one).  Both are modelled on
character lists.  `isJsSpace` models the full JS `\s` character class. -/

/-- What the collapse regex emits for a maximal run of `k` newlines. -/
def emitRun (k : Nat) : List Char :=
  if 3 ≤ k then ['\n', '\n'] else List.replicate k '\n'

/-- State machine for `replace(/\n\x7b3,\x7d/g, "\n\n")`: `k` counts the
newline run currently pending. -/
def collapseGo : Nat → List Char → List Char
  | k, [] => emitRun k
  | k, c :: rest =>
    if c = '\n' then collapseGo (k + 1) rest
    else emitRun k ++ c :: collapseGo 0 rest

def jsCollapseNewlines (s : String) : String :=
  String.mk (collapseGo 0 s.toList)

/-- The JS `\s` character class: ASCII whitespace plus NO-BREAK SPACE
(U+00A0), OGHAM SPACE MARK (U+1680), the U+2000-U+200A spaces, LINE SEPARATOR
(U+2028), PARAGRAPH SEPARATOR (U+2029), NARROW NO-BREAK SPACE (U+202F),
MEDIUM MATHEMATICAL SPACE (U+205F), IDEOGRAPHIC SPACE (U+3000) and the BOM
(U+FEFF). -/
def isJsSpace (c : Char) : Bool :=
  c = ' ' || c = '\t' || c = '\n' || c = '\r' || c = '\x0b' || c = '\x0c'
    || c = '\u00A0' || c = '\u1680'
    || ('\u2000' ≤ c && c ≤ '\u200A')
    || c = '\u2028' || c = '\u2029' || c = '\u202F' || c = '\u205F'
    || c = '\u3000' || c = '\uFEFF'

/-- Drop everything up to and including the last newline of a list (used on
the leading whitespace run, mirroring the greedy backtracking of
`/^\s*\n/`). -/
def afterLastNewline : List Char → List Char
  | [] => []
  | c :: rest =>
    if '\n' ∈ rest then afterLastNewline rest
    else if c = '\n' then rest else c :: rest

def jsStripLeadingBlankLines (s : String) : String :=
  let l := s.toList
  let w := l.takeWhile isJsSpace
  if '\n' ∈ w then String.mk (afterLastNewline w ++ l.dropWhile isJsSpace)
  else s

/-- The two clean-ups in the order the code applies them. -/
def cleanupText (s : String) : String :=
  jsStripLeadingBlankLines (jsCollapseNewlines s)

/-- No three consecutive newline characters anywhere. -/
def noTripleNewline : List Char → Bool
  | a :: b :: c :: rest =>
    !(a = '\n' && b = '\n' && c = '\n') && noTripleNewline (b :: c :: rest)
  | _ => true

/-! ## A reading of the spec's own description of the collapse normalization

The spec (section 4.3) words the first clean-up as "collapse runs of 3+
consecutive blank lines to exactly one".  A run of `k` newline characters
contains `k - 1` blank lines, so read literally only runs with `k - 1 ≥ 3`,
i.e. `k ≥ 4` newline characters, may be collapsed.  The following definitions
follow the spec's words (second definition of a refinement comparison; the
code's own regex is `jsCollapseNewlines` above). -/

def specEmitRun (k : Nat) : List Char :=
  if 4 ≤ k then ['\n', '\n'] else List.replicate k '\n'

def specCollapseGo : Nat → List Char → List Char
  | k, [] => specEmitRun k
  | k, c :: rest =>
    if c = '\n' then specCollapseGo (k + 1) rest
    else specEmitRun k ++ c :: specCollapseGo 0 rest

/-- Collapse as described by the spec sentence: only runs of 3+ blank lines
(4+ newline characters) become one blank line. -/
def specCollapseBlankLines (s : String) : String :=
  String.mk (specCollapseGo 0 s.toList)

/-- The spec-described clean-up pair (the leading-blank strip is not in
dispute, so it is shared with the code model). -/
def specCleanupText (s : String) : String :=
  jsStripLeadingBlankLines (specCollapseBlankLines s)

/-! ## String-boundary models of the entry points

The parser (`@babel/parser`), the code generator (`@babel/generator`) and the
vue SFC parser (`@vue/compiler-sfc`) are external dependencies, so they enter
the model as function parameters.  A Babel parse failure is a thrown
exception carrying the error location; `Except` models throw/catch. -/

structure ParseError where
  message : String
  line : Nat
  column : Nat
deriving DecidableEq, Repr

/-- `removeUnusedImports` (lines 17-143) at the string boundary.
`babelResolved` models the lines 49-51 guard (traverse/generate resolvable as
functions); a parse failure is swallowed by the `catch` of line 138, which
returns the input unchanged.  On success the pruned tree is regenerated and
the two clean-ups of lines 133-136 run. -/
def removeUnusedImportsStr (parse : String → Except ParseError NodeList)
    (gen : NodeList → String) (babelResolved : Bool) (code : String) : String :=
  if !babelResolved then code
  else
    match parse code with
    | .error _ => code
    | .ok ast => cleanupText (gen (removeUnusedImportsAst ast))

/-- The ts/tsx branch of `stripTSFromString` (lines 159-253) with
`removeUnusedImports: true`: parse (a failure is rethrown, lines 251-253),
erase, regenerate, prune at the string level, then the clean-ups of lines
246-248. -/
def stripTSFromStringTS (parse : String → Except ParseError NodeList)
    (gen : NodeList → String)
    (parsePrune : String → Except ParseError NodeList)
    (babelResolved : Bool)
    (content : String) : Except ParseError String :=
  match parse content with
  | .error e => .error e
  | .ok ast =>
    .ok (cleanupText (removeUnusedImportsStr parsePrune gen babelResolved
      (gen (eraseList ast))))

structure SFCBlock where
  lang : Option String
  content : String
deriving DecidableEq, Repr

structure SFCDescriptor where
  script : Option SFCBlock
  scriptSetup : Option SFCBlock
deriving DecidableEq, Repr

/-- `sfc.descriptor.script?.lang === 'ts' || sfc.descriptor.scriptSetup?.lang
=== 'ts'` (lines 256, 497). -/
def sfcHasTs (d : SFCDescriptor) : Bool :=
  (match d.script with
   | some b => b.lang == some "ts"
   | none => false)
  || (match d.scriptSetup with
      | some b => b.lang == some "ts"
      | none => false)

/-- The vue branch of `stripTSFromString` (lines 254-352): with no `lang="ts"`
marker and `forceStrip` false the input string is returned as is; otherwise
the script section is processed (the processing itself stays abstract). -/
def stripTSFromStringVue (parseVue : String → SFCDescriptor)
    (process : String → String) (content : String) (forceStrip : Bool) : String :=
  if !sfcHasTs (parseVue content) && !forceStrip then content
  else process content

/-- The vue branch of `stripTSFromFile` (lines 495-596): the same gate, but
the no-op outcome is the distinguished value `null` (here `none`) rather than
the unchanged text. -/
def stripTSFromFileVue (parseVue : String → SFCDescriptor)
    (process : String → String) (fileContent : String) (forceStrip : Bool) :
    Option String :=
  if !sfcHasTs (parseVue fileContent) && !forceStrip then none
  else some (process fileContent)

/-! ## Concrete Babel trees for the spec's scenarios -/

def identN (s : String) : Node := Node.ident s .nil

def nl1 (a : Node) : NodeList := .cons a .nil

def nl2 (a b : Node) : NodeList := .cons a (.cons b .nil)

def nl3 (a b c : Node) : NodeList := .cons a (.cons b (.cons c .nil))

def nl4 (a b c d : Node) : NodeList := .cons a (.cons b (.cons c (.cons d .nil)))

/-- Babel tree of `interface U{name:string} function f(u:U):string{return u.name}`. -/
def scenarioInterfaceInput : NodeList :=
  nl2
    (.tsInterfaceDeclaration "U"
      (nl1 (.other "TSPropertySignature"
        (nl2 (identN "name")
          (.tsTypeAnn (nl1 (.other "TSStringKeyword" .nil)))))))
    (.other "FunctionDeclaration"
      (nl4 (identN "f")
        (.ident "u"
          (nl1 (.tsTypeAnn (nl1 (.other "TSTypeReference" (nl1 (identN "U")))))))
        (.tsTypeAnn (nl1 (.other "TSStringKeyword" .nil)))
        (.other "BlockStatement"
          (nl1 (.other "ReturnStatement"
            (nl1 (.other "MemberExpression" (nl2 (identN "u") (identN "name")))))))))

/-- Babel tree of `function f(u){return u.name}`. -/
def scenarioInterfaceOutput : NodeList :=
  nl1 (.other "FunctionDeclaration"
    (nl3 (identN "f") (identN "u")
      (.other "BlockStatement"
        (nl1 (.other "ReturnStatement"
          (nl1 (.other "MemberExpression" (nl2 (identN "u") (identN "name")))))))))

/-- Babel tree of `const x = (y as string).length; const z = w!;`. -/
def scenarioAssertInput : NodeList :=
  nl2
    (.other "VariableDeclaration"
      (nl1 (.other "VariableDeclarator"
        (nl2 (identN "x")
          (.other "MemberExpression"
            (nl2 (.tsAsExpression (identN "y") (nl1 (.other "TSStringKeyword" .nil)))
              (identN "length")))))))
    (.other "VariableDeclaration"
      (nl1 (.other "VariableDeclarator"
        (nl2 (identN "z") (.tsNonNullExpression (identN "w"))))))

/-- Babel tree of `const x = y.length; const z = w;`. -/
def scenarioAssertOutput : NodeList :=
  nl2
    (.other "VariableDeclaration"
      (nl1 (.other "VariableDeclarator"
        (nl2 (identN "x")
          (.other "MemberExpression" (nl2 (identN "y") (identN "length")))))))
    (.other "VariableDeclaration"
      (nl1 (.other "VariableDeclarator" (nl2 (identN "z") (identN "w")))))

/-- Babel tree of a vue script statement `const c = useState<number>(5)`:
a call expression carrying a `TSTypeParameterInstantiation`. -/
def scenarioVueGenericInput : NodeList :=
  nl1 (.other "VariableDeclaration"
    (nl1 (.other "VariableDeclarator"
      (nl2 (identN "c")
        (.other "CallExpression"
          (nl3 (identN "useState")
            (.tsTypeParameterInstantiation (nl1 (.other "TSNumberKeyword" .nil)))
            (.other "NumericLiteral" .nil)))))))

/-- The same tree with the type-argument list removed (what the ts/tsx
visitor set produces). -/
def scenarioVueGenericStripped : NodeList :=
  nl1 (.other "VariableDeclaration"
    (nl1 (.other "VariableDeclarator"
      (nl2 (identN "c")
        (.other "CallExpression"
          (nl2 (identN "useState") (.other "NumericLiteral" .nil)))))))

/-- Babel tree of `import React from "react"; <React/>;` — the default
binding is used only in markup-tag position. -/
def scenarioReactTagOnly : NodeList :=
  nl2
    (.importDecl "react" [⟨.importDefaultSpecifier, "React"⟩])
    (.other "ExpressionStatement"
      (nl1 (.other "JSXElement"
        (nl1 (.other "JSXOpeningElement" (nl1 (.jsxIdent "React")))))))

/-- Babel tree of `import {A,B} from "m"; console.log(A)`. -/
def scenarioImportAB : NodeList :=
  nl2
    (.importDecl "m" [⟨.importSpecifier, "A"⟩, ⟨.importSpecifier, "B"⟩])
    (.other "ExpressionStatement"
      (nl1 (.other "CallExpression"
        (nl2 (.other "MemberExpression" (nl2 (identN "console") (identN "log")))
          (identN "A")))))

/-- The non-import statement of `scenarioImportAB`. -/
def scenarioImportABRest : NodeList :=
  nl1 (.other "ExpressionStatement"
    (nl1 (.other "CallExpression"
      (nl2 (.other "MemberExpression" (nl2 (identN "console") (identN "log")))
        (identN "A")))))

/-- Babel tree of `<Button/>;` — a markup-tag-only use of `Button`. -/
def scenarioButtonTag : NodeList :=
  nl1 (.other "ExpressionStatement"
    (nl1 (.other "JSXElement"
      (nl1 (.other "JSXOpeningElement" (nl1 (.jsxIdent "Button")))))))


mutual

theorem eraseNode_noTS : ∀ n m, eraseNode n = some m → noTSNode m = true
  | .ident s ann, m, h => by
    simp only [eraseNode, Option.some.injEq] at h
    subst h
    simpa [noTSNode] using eraseList_noTS ann
  | .jsxIdent s, m, h => by
    simp only [eraseNode, Option.some.injEq] at h
    subst h
    rfl
  | .jsxMember obj prop, m, h => by
    cases hobj : eraseNode obj with
    | none => simp [eraseNode, hobj] at h
    | some o =>
      cases hprop : eraseNode prop with
      | none => simp [eraseNode, hobj, hprop] at h
      | some p =>
        simp only [eraseNode, hobj, hprop, Option.some.injEq] at h
        subst h
        simp [noTSNode, eraseNode_noTS obj o hobj, eraseNode_noTS prop p hprop]
  | .importDecl src specs, m, h => by
    simp only [eraseNode, Option.some.injEq] at h
    subst h
    rfl
  | .tsTypeAnn cs, m, h => by simp [eraseNode] at h
  | .tsInterfaceDeclaration s cs, m, h => by simp [eraseNode] at h
  | .tsTypeAliasDeclaration s cs, m, h => by simp [eraseNode] at h
  | .tsTypeParameterInstantiation cs, m, h => by simp [eraseNode] at h
  | .tsAsExpression e ty, m, h => eraseNode_noTS e m h
  | .tsNonNullExpression e, m, h => eraseNode_noTS e m h
  | .other k cs, m, h => by
    simp only [eraseNode, Option.some.injEq] at h
    subst h
    simpa [noTSNode] using eraseList_noTS cs

theorem eraseList_noTS : ∀ l, noTSList (eraseList l) = true
  | .nil => rfl
  | .cons h t => by
    cases hh : eraseNode h with
    | none => simpa [eraseList, hh] using eraseList_noTS t
    | some h2 =>
      simp [eraseList, hh, noTSList, eraseNode_noTS h h2 hh, eraseList_noTS t]

end

mutual

theorem eraseNodeVue_noTSVue : ∀ n m, eraseNodeVue n = some m → noTSVueNode m = true
  | .ident s ann, m, h => by
    simp only [eraseNodeVue, Option.some.injEq] at h
    subst h
    simpa [noTSVueNode] using eraseListVue_noTSVue ann
  | .jsxIdent s, m, h => by
    simp only [eraseNodeVue, Option.some.injEq] at h
    subst h
    rfl
  | .jsxMember obj prop, m, h => by
    cases hobj : eraseNodeVue obj with
    | none => simp [eraseNodeVue, hobj] at h
    | some o =>
      cases hprop : eraseNodeVue prop with
      | none => simp [eraseNodeVue, hobj, hprop] at h
      | some p =>
        simp only [eraseNodeVue, hobj, hprop, Option.some.injEq] at h
        subst h
        simp [noTSVueNode, eraseNodeVue_noTSVue obj o hobj, eraseNodeVue_noTSVue prop p hprop]
  | .importDecl src specs, m, h => by
    simp only [eraseNodeVue, Option.some.injEq] at h
    subst h
    rfl
  | .tsTypeAnn cs, m, h => by simp [eraseNodeVue] at h
  | .tsInterfaceDeclaration s cs, m, h => by simp [eraseNodeVue] at h
  | .tsTypeAliasDeclaration s cs, m, h => by simp [eraseNodeVue] at h
  | .tsTypeParameterInstantiation cs, m, h => by
    simp only [eraseNodeVue, Option.some.injEq] at h
    subst h
    simpa [noTSVueNode] using eraseListVue_noTSVue cs
  | .tsAsExpression e ty, m, h => eraseNodeVue_noTSVue e m h
  | .tsNonNullExpression e, m, h => eraseNodeVue_noTSVue e m h
  | .other k cs, m, h => by
    simp only [eraseNodeVue, Option.some.injEq] at h
    subst h
    simpa [noTSVueNode] using eraseListVue_noTSVue cs

theorem eraseListVue_noTSVue : ∀ l, noTSVueList (eraseListVue l) = true
  | .nil => rfl
  | .cons h t => by
    cases hh : eraseNodeVue h with
    | none => simpa [eraseListVue, hh] using eraseListVue_noTSVue t
    | some h2 =>
      simp [eraseListVue, hh, noTSVueList, eraseNodeVue_noTSVue h h2 hh,
        eraseListVue_noTSVue t]

end

mutual

theorem noTS_eraseNode_id : ∀ n, noTSNode n = true → eraseNode n = some n
  | .ident s ann, h => by
    simp only [noTSNode] at h
    simp [eraseNode, noTS_eraseList_id ann h]
  | .jsxIdent s, _ => rfl
  | .jsxMember obj prop, h => by
    simp only [noTSNode, Bool.and_eq_true] at h
    simp [eraseNode, noTS_eraseNode_id obj h.1, noTS_eraseNode_id prop h.2]
  | .importDecl src specs, _ => rfl
  | .tsTypeAnn cs, h => by simp [noTSNode] at h
  | .tsInterfaceDeclaration s cs, h => by simp [noTSNode] at h
  | .tsTypeAliasDeclaration s cs, h => by simp [noTSNode] at h
  | .tsTypeParameterInstantiation cs, h => by simp [noTSNode] at h
  | .tsAsExpression e ty, h => by simp [noTSNode] at h
  | .tsNonNullExpression e, h => by simp [noTSNode] at h
  | .other k cs, h => by
    simp only [noTSNode] at h
    simp [eraseNode, noTS_eraseList_id cs h]

theorem noTS_eraseList_id : ∀ l, noTSList l = true → eraseList l = l
  | .nil, _ => rfl
  | .cons h t, hl => by
    simp only [noTSList, Bool.and_eq_true] at hl
    simp [eraseList, noTS_eraseNode_id h hl.1, noTS_eraseList_id t hl.2]

end

/-- Erasure is idempotent at the tree level: the first pass leaves no
erasure-relevant construct, so the second changes nothing. -/
theorem eraseList_idem (l : NodeList) : eraseList (eraseList l) = eraseList l :=
  noTS_eraseList_id _ (eraseList_noTS l)

mutual

theorem pruneNode_noTS :
    ∀ n m, pruneNode u j n = some m → noTSNode n = true → noTSNode m = true
  | .ident s ann, m, h, hn => by
    simp only [pruneNode, Option.some.injEq] at h
    exact h ▸ hn
  | .jsxIdent s, m, h, hn => by
    simp only [pruneNode, Option.some.injEq] at h
    exact h ▸ hn
  | .jsxMember obj prop, m, h, hn => by
    simp only [pruneNode, Option.some.injEq] at h
    exact h ▸ hn
  | .importDecl src specs, m, h, hn => by
    simp only [pruneNode] at h
    split at h
    · simp only [Option.some.injEq] at h
      exact h ▸ hn
    · split at h
      · exact absurd h (by simp)
      · simp only [Option.some.injEq] at h
        subst h
        rfl
  | .tsTypeAnn cs, m, h, hn => by simp [noTSNode] at hn
  | .tsInterfaceDeclaration s cs, m, h, hn => by simp [noTSNode] at hn
  | .tsTypeAliasDeclaration s cs, m, h, hn => by simp [noTSNode] at hn
  | .tsTypeParameterInstantiation cs, m, h, hn => by simp [noTSNode] at hn
  | .tsAsExpression e ty, m, h, hn => by simp [noTSNode] at hn
  | .tsNonNullExpression e, m, h, hn => by simp [noTSNode] at hn
  | .other k cs, m, h, hn => by
    simp only [pruneNode, Option.some.injEq] at h
    subst h
    simp only [noTSNode] at hn ⊢
    exact pruneList_noTS cs hn

theorem pruneList_noTS :
    ∀ l, noTSList l = true → noTSList (pruneList u j l) = true
  | .nil, _ => rfl
  | .cons h t, hl => by
    simp only [noTSList, Bool.and_eq_true] at hl
    cases hh : pruneNode u j h with
    | none => simpa [pruneList, hh] using pruneList_noTS t hl.2
    | some h2 =>
      simp [pruneList, hh, noTSList, pruneNode_noTS h h2 hh hl.1, pruneList_noTS t hl.2]

end

mutual

theorem pruneNode_plainUses :
    ∀ n, ((pruneNode u j n).elim ([] : List String) plainUsesNode) = plainUsesNode n
  | .ident s ann => rfl
  | .jsxIdent s => rfl
  | .jsxMember obj prop => rfl
  | .importDecl src specs => by
    simp only [pruneNode]
    split
    · rfl
    · split
      · rfl
      · rfl
  | .tsTypeAnn cs => rfl
  | .tsInterfaceDeclaration s cs => rfl
  | .tsTypeAliasDeclaration s cs => rfl
  | .tsTypeParameterInstantiation cs => rfl
  | .tsAsExpression e ty => rfl
  | .tsNonNullExpression e => rfl
  | .other k cs => by
    simp only [pruneNode, Option.elim_some, plainUsesNode]
    exact pruneList_plainUses cs

theorem pruneList_plainUses :
    ∀ l, plainUsesList (pruneList u j l) = plainUsesList l
  | .nil => rfl
  | .cons h t => by
    have hn := pruneNode_plainUses (u := u) (j := j) h
    cases hh : pruneNode u j h with
    | none =>
      rw [hh] at hn
      simp only [Option.elim_none] at hn
      simp [pruneList, hh, plainUsesList, ← hn, pruneList_plainUses t]
    | some h2 =>
      rw [hh] at hn
      simp only [Option.elim_some] at hn
      simp [pruneList, hh, plainUsesList, hn, pruneList_plainUses t]

end

mutual

theorem pruneNode_jsxUses :
    ∀ n, ((pruneNode u j n).elim ([] : List String) jsxUsesNode) = jsxUsesNode n
  | .ident s ann => rfl
  | .jsxIdent s => rfl
  | .jsxMember obj prop => rfl
  | .importDecl src specs => by
    simp only [pruneNode]
    split
    · rfl
    · split
      · rfl
      · rfl
  | .tsTypeAnn cs => rfl
  | .tsInterfaceDeclaration s cs => rfl
  | .tsTypeAliasDeclaration s cs => rfl
  | .tsTypeParameterInstantiation cs => rfl
  | .tsAsExpression e ty => rfl
  | .tsNonNullExpression e => rfl
  | .other k cs => by
    simp only [pruneNode, Option.elim_some, jsxUsesNode]
    exact pruneList_jsxUses cs

theorem pruneList_jsxUses :
    ∀ l, jsxUsesList (pruneList u j l) = jsxUsesList l
  | .nil => rfl
  | .cons h t => by
    have hn := pruneNode_jsxUses (u := u) (j := j) h
    cases hh : pruneNode u j h with
    | none =>
      rw [hh] at hn
      simp only [Option.elim_none] at hn
      simp [pruneList, hh, jsxUsesList, ← hn, pruneList_jsxUses t]
    | some h2 =>
      rw [hh] at hn
      simp only [Option.elim_some] at hn
      simp [pruneList, hh, jsxUsesList, hn, pruneList_jsxUses t]

end

mutual

theorem pruneNode_idem :
    ∀ n m, pruneNode u j n = some m → pruneNode u j m = some m
  | .ident s ann, m, h => by
    simp only [pruneNode, Option.some.injEq] at h
    subst h
    rfl
  | .jsxIdent s, m, h => by
    simp only [pruneNode, Option.some.injEq] at h
    subst h
    rfl
  | .jsxMember obj prop, m, h => by
    simp only [pruneNode, Option.some.injEq] at h
    subst h
    rfl
  | .importDecl src specs, m, h => by
    simp only [pruneNode] at h
    split at h
    · simp only [Option.some.injEq] at h
      subst h
      simp only [pruneNode]
      split
      · rfl
      · simp_all
    · rename_i hne
      split at h
      · exact absurd h (by simp)
      · rename_i hkept
        simp only [Option.some.injEq] at h
        subst h
        have hff : (specs.filter (keepSpecifier u j)).filter (keepSpecifier u j)
            = specs.filter (keepSpecifier u j) := by
          rw [List.filter_filter]
          simp
        simp only [pruneNode, hff]
        simp [hkept]
  | .tsTypeAnn cs, m, h => by
    simp only [pruneNode, Option.some.injEq] at h
    subst h
    rfl
  | .tsInterfaceDeclaration s cs, m, h => by
    simp only [pruneNode, Option.some.injEq] at h
    subst h
    rfl
  | .tsTypeAliasDeclaration s cs, m, h => by
    simp only [pruneNode, Option.some.injEq] at h
    subst h
    rfl
  | .tsTypeParameterInstantiation cs, m, h => by
    simp only [pruneNode, Option.some.injEq] at h
    subst h
    rfl
  | .tsAsExpression e ty, m, h => by
    simp only [pruneNode, Option.some.injEq] at h
    subst h
    rfl
  | .tsNonNullExpression e, m, h => by
    simp only [pruneNode, Option.some.injEq] at h
    subst h
    rfl
  | .other k cs, m, h => by
    simp only [pruneNode, Option.some.injEq] at h
    subst h
    exact congrArg (fun x => some (Node.other k x)) (pruneList_idem cs)

theorem pruneList_idem :
    ∀ l, pruneList u j (pruneList u j l) = pruneList u j l
  | .nil => rfl
  | .cons h t => by
    cases hh : pruneNode u j h with
    | none => simpa [pruneList, hh] using pruneList_idem t
    | some h2 =>
      simp [pruneList, hh, pruneNode_idem h h2 hh, pruneList_idem t]

end

theorem pruneList_nlApp (u j : List String) :
    ∀ l r, pruneList u j (nlApp l r) = nlApp (pruneList u j l) (pruneList u j r)
  | .nil, r => rfl
  | .cons h t, r => by
    cases hh : pruneNode u j h <;>
      simp [nlApp, pruneList, hh, pruneList_nlApp u j t r]

theorem plainUsesList_nlApp :
    ∀ l r, plainUsesList (nlApp l r) = plainUsesList l ++ plainUsesList r
  | .nil, r => rfl
  | .cons h t, r => by
    simp [nlApp, plainUsesList, plainUsesList_nlApp t r]

theorem jsxUsesList_nlApp :
    ∀ l r, jsxUsesList (nlApp l r) = jsxUsesList l ++ jsxUsesList r
  | .nil, r => rfl
  | .cons h t, r => by
    simp [nlApp, jsxUsesList, jsxUsesList_nlApp t r]

/-- Pruning changes no use set: import declarations contribute no uses and
non-import statements are rewritten only below `other` nodes, child for
child. -/
theorem removeUnusedImportsAst_plainUses (p : NodeList) :
    plainUsesList (removeUnusedImportsAst p) = plainUsesList p :=
  pruneList_plainUses p

theorem removeUnusedImportsAst_jsxUses (p : NodeList) :
    jsxUsesList (removeUnusedImportsAst p) = jsxUsesList p :=
  pruneList_jsxUses p

theorem removeUnusedImportsAst_idem (p : NodeList) :
    removeUnusedImportsAst (removeUnusedImportsAst p) = removeUnusedImportsAst p := by
  unfold removeUnusedImportsAst
  rw [pruneList_plainUses, pruneList_jsxUses, pruneList_idem]

/-- The membership characterization of `keepSpecifier`: live iff the local
name is in `usedIdentifiers ∪ jsxIdentifiers`, except that a default
specifier named `React` needs a plain (non-JSX) use. -/
theorem keepSpecifier_iff (u j : List String) (s : ImportSpecifier) :
    keepSpecifier u j s = true ↔
      ((s.localName ∈ u ∨ s.localName ∈ j) ∧
        ¬(s.kind = SpecifierKind.importDefaultSpecifier ∧ s.localName = "React" ∧
            s.localName ∉ u)) := by
  obtain ⟨k, name⟩ := s
  cases k with
  | importDefaultSpecifier =>
    by_cases hr : name = "React" <;> by_cases hu : name ∈ u <;>
      simp [keepSpecifier, hr, hu] <;> tauto
  | importSpecifier => simp [keepSpecifier]
  | importNamespaceSpecifier => simp [keepSpecifier]

theorem keepSpecifier_false (u j : List String) (s : ImportSpecifier)
    (h : keepSpecifier u j s = false) :
    (s.localName ∉ u ∧ s.localName ∉ j) ∨
      (s.kind = SpecifierKind.importDefaultSpecifier ∧ s.localName = "React" ∧
        s.localName ∉ u) := by
  have := (keepSpecifier_iff u j s).not.mpr
  by_contra hc
  push_neg at hc
  obtain ⟨h1, h2⟩ := hc
  have hk : keepSpecifier u j s = true := by
    rw [keepSpecifier_iff]
    refine ⟨?_, ?_⟩
    · by_cases hu : s.localName ∈ u
      · exact Or.inl hu
      · exact Or.inr (h1 hu)
    · intro ⟨ha, hb, hcu⟩
      exact absurd (h2 ha hb) (by simpa using hcu)
  rw [h] at hk
  exact Bool.false_ne_true hk

theorem noTriple_tail {a : Char} {l : List Char}
    (h : noTripleNewline (a :: l) = true) : noTripleNewline l = true := by
  match l with
  | [] => rfl
  | [b] => rfl
  | b :: c :: r =>
    simp only [noTripleNewline, Bool.and_eq_true] at h
    exact h.2

theorem noTriple_append_right :
    ∀ (x l : List Char), noTripleNewline (x ++ l) = true → noTripleNewline l = true
  | [], _, h => h
  | _ :: x, l, h => noTriple_append_right x l (noTriple_tail h)

theorem noTriple_cons_ne {c : Char} {l : List Char} (hc : c ≠ '\n')
    (h : noTripleNewline l = true) : noTripleNewline (c :: l) = true := by
  match l with
  | [] => rfl
  | [b] => simp [noTripleNewline, hc]
  | b :: d :: r =>
    simp only [noTripleNewline, Bool.and_eq_true] at h ⊢
    exact ⟨by simp [hc], h⟩

theorem noTriple_cons_cons_ne {b c : Char} {l : List Char} (hc : c ≠ '\n')
    (h : noTripleNewline (c :: l) = true) : noTripleNewline (b :: c :: l) = true := by
  match l with
  | [] => rfl
  | x :: r =>
    simp only [noTripleNewline, Bool.and_eq_true] at h ⊢
    exact ⟨by simp [hc], h⟩

theorem noTriple_emitRun (k : Nat) : noTripleNewline (emitRun k) = true := by
  unfold emitRun
  split
  · decide
  · rename_i hk
    interval_cases k <;> decide

theorem noTriple_emitRun_append {c : Char} {l : List Char} (k : Nat) (hc : c ≠ '\n')
    (h : noTripleNewline (c :: l) = true) :
    noTripleNewline (emitRun k ++ c :: l) = true := by
  unfold emitRun
  split
  · show noTripleNewline ('\n' :: '\n' :: c :: l) = true
    have h1 : noTripleNewline ('\n' :: c :: l) = true := noTriple_cons_cons_ne hc h
    match l with
    | [] => simp [noTripleNewline, hc]
    | x :: r =>
      simp only [noTripleNewline, Bool.and_eq_true] at h1 ⊢
      exact ⟨by simp [hc], h1⟩
  · rename_i hk
    interval_cases k
    · exact h
    · exact noTriple_cons_cons_ne hc h
    · show noTripleNewline ('\n' :: '\n' :: c :: l) = true
      have h1 : noTripleNewline ('\n' :: c :: l) = true := noTriple_cons_cons_ne hc h
      match l with
      | [] => simp [noTripleNewline, hc]
      | x :: r =>
        simp only [noTripleNewline, Bool.and_eq_true] at h1 ⊢
        exact ⟨by simp [hc], h1⟩

/-- The collapse pass leaves no run of three or more newlines. -/
theorem noTriple_collapseGo : ∀ (l : List Char) (k : Nat), noTripleNewline (collapseGo k l) = true
  | [], k => noTriple_emitRun k
  | c :: rest, k => by
    by_cases hc : c = '\n'
    · simpa [collapseGo, hc] using noTriple_collapseGo rest (k + 1)
    · have h := noTriple_collapseGo rest 0
      simpa [collapseGo, hc] using
        noTriple_emitRun_append k hc (noTriple_cons_ne hc h)

theorem noTriple_replicate_lt {k : Nat} {l : List Char}
    (h : noTripleNewline (List.replicate k '\n' ++ l) = true) : k < 3 := by
  by_contra hk
  push_neg at hk
  obtain ⟨m, rfl⟩ : ∃ m, k = m + 3 := ⟨k - 3, by omega⟩
  simp [List.replicate_succ, noTripleNewline] at h

/-- A string already in collapse normal form is untouched by the collapse
pass. -/
theorem collapseGo_of_noTriple :
    ∀ (l : List Char) (k : Nat),
      noTripleNewline (List.replicate k '\n' ++ l) = true →
      collapseGo k l = List.replicate k '\n' ++ l
  | [], k, h => by
    have hk : k < 3 := by simpa using noTriple_replicate_lt (l := []) (by simpa using h)
    simp [collapseGo, emitRun, Nat.not_le.mpr hk]
  | c :: rest, k, h => by
    by_cases hc : c = '\n'
    · subst hc
      have hrepl : List.replicate k '\n' ++ '\n' :: rest
          = List.replicate (k + 1) '\n' ++ rest := by
        rw [List.replicate_succ' (n := k)]
        simp
      rw [hrepl] at h
      rw [show collapseGo k ('\n' :: rest) = collapseGo (k + 1) rest from by
        simp [collapseGo]]
      rw [collapseGo_of_noTriple rest (k + 1) h, hrepl]
    · have hk : k < 3 := noTriple_replicate_lt h
      have hrest : noTripleNewline rest = true := by
        have := noTriple_append_right (List.replicate k '\n') (c :: rest) h
        exact noTriple_tail this
      simp only [collapseGo, if_neg hc]
      rw [collapseGo_of_noTriple rest 0 (by simpa using hrest)]
      simp [emitRun, Nat.not_le.mpr hk]

theorem jsCollapseNewlines_noTriple (s : String) :
    noTripleNewline (jsCollapseNewlines s).toList = true :=
  noTriple_collapseGo s.toList 0

theorem jsCollapseNewlines_of_noTriple {s : String}
    (h : noTripleNewline s.toList = true) : jsCollapseNewlines s = s := by
  unfold jsCollapseNewlines
  rw [collapseGo_of_noTriple s.toList 0 (by simpa using h)]
  rfl

theorem jsCollapseNewlines_idem (s : String) :
    jsCollapseNewlines (jsCollapseNewlines s) = jsCollapseNewlines s :=
  jsCollapseNewlines_of_noTriple (jsCollapseNewlines_noTriple s)

theorem afterLastNewline_no_nl :
    ∀ w : List Char, '\n' ∉ afterLastNewline w
  | [] => by simp [afterLastNewline]
  | c :: rest => by
    unfold afterLastNewline
    by_cases hr : '\n' ∈ rest
    · rw [if_pos hr]
      exact afterLastNewline_no_nl rest
    · rw [if_neg hr]
      by_cases hc : c = '\n'
      · rw [if_pos hc]
        exact hr
      · rw [if_neg hc]
        intro hmem
        rcases List.mem_cons.mp hmem with h1 | h1
        · exact hc h1.symm
        · exact hr h1

theorem afterLastNewline_suffix :
    ∀ w : List Char, ∃ pre, w = pre ++ afterLastNewline w
  | [] => ⟨[], rfl⟩
  | c :: rest => by
    unfold afterLastNewline
    by_cases hr : '\n' ∈ rest
    · rw [if_pos hr]
      obtain ⟨pre, hp⟩ := afterLastNewline_suffix rest
      exact ⟨c :: pre, by rw [List.cons_append, ← hp]⟩
    · rw [if_neg hr]
      by_cases hc : c = '\n'
      · rw [if_pos hc]
        exact ⟨[c], rfl⟩
      · rw [if_neg hc]
        exact ⟨[], rfl⟩

theorem takeWhile_append_all {p : Char → Bool} :
    ∀ (a d : List Char), (∀ x ∈ a, p x = true) →
      List.takeWhile p (a ++ d) = a ++ List.takeWhile p d
  | [], d, _ => rfl
  | c :: a, d, h => by
    have hc : p c = true := h c (by simp)
    simp only [List.cons_append, List.takeWhile_cons, hc, if_pos]
    rw [takeWhile_append_all a d (fun x hx => h x (by simp [hx]))]

theorem mem_afterLastNewline_isJsSpace {w : List Char}
    (hall : ∀ x ∈ w, isJsSpace x = true) :
    ∀ x ∈ afterLastNewline w, isJsSpace x = true := by
  obtain ⟨pre, hp⟩ := afterLastNewline_suffix w
  intro x hx
  exact hall x (by rw [hp]; simp [hx])

theorem toList_mk (l : List Char) : (String.mk l).toList = l := rfl

/-- One-step description of the strip pass when the leading whitespace run
contains a newline. -/
theorem jsStripLeadingBlankLines_pos {s : String}
    (hw : '\n' ∈ s.toList.takeWhile isJsSpace) :
    jsStripLeadingBlankLines s
      = String.mk (afterLastNewline (s.toList.takeWhile isJsSpace)
          ++ s.toList.dropWhile isJsSpace) := by
  unfold jsStripLeadingBlankLines
  rw [if_pos hw]

theorem jsStripLeadingBlankLines_neg {s : String}
    (hw : '\n' ∉ s.toList.takeWhile isJsSpace) :
    jsStripLeadingBlankLines s = s := by
  unfold jsStripLeadingBlankLines
  rw [if_neg hw]

/-- `jsStripLeadingBlankLines` is idempotent: its output starts either with a
non-space character or with a newline-free whitespace run, so the regex no
longer matches. -/
theorem jsStripLeadingBlankLines_idem (s : String) :
    jsStripLeadingBlankLines (jsStripLeadingBlankLines s) = jsStripLeadingBlankLines s := by
  by_cases hw : '\n' ∈ s.toList.takeWhile isJsSpace
  · rw [jsStripLeadingBlankLines_pos hw]
    set a := afterLastNewline (s.toList.takeWhile isJsSpace) with ha
    set d := s.toList.dropWhile isJsSpace with hd
    have halist : ∀ x ∈ a, isJsSpace x = true := by
      rw [ha]
      exact mem_afterLastNewline_isJsSpace (fun x hx => List.mem_takeWhile_imp hx)
    have htake : List.takeWhile isJsSpace (a ++ d) = a := by
      rw [takeWhile_append_all a d halist]
      have hnil : List.takeWhile isJsSpace d = [] := by
        rw [hd]
        cases hcase : s.toList.dropWhile isJsSpace with
        | nil => rfl
        | cons c r =>
          have hcfalse : isJsSpace c = false := by
            have := List.head?_dropWhile_not isJsSpace s.toList
            rw [hcase] at this
            simpa using this
          simp [List.takeWhile_cons, hcfalse]
      rw [hnil, List.append_nil]
    apply jsStripLeadingBlankLines_neg
    rw [toList_mk, htake, ha]
    exact afterLastNewline_no_nl _
  · rw [jsStripLeadingBlankLines_neg hw]
    exact jsStripLeadingBlankLines_neg hw

/-- The full clean-up is idempotent: the collapse output has no triple
newline, stripping only removes a prefix (so triples cannot reappear), and
the strip pass is itself idempotent. -/
theorem cleanupText_idem (s : String) :
    cleanupText (cleanupText s) = cleanupText s := by
  unfold cleanupText
  set t := jsCollapseNewlines s with ht
  have htri : noTripleNewline t.toList = true := by
    rw [ht]; exact jsCollapseNewlines_noTriple s
  have hsuffix : ∃ pre, t.toList = pre ++ (jsStripLeadingBlankLines t).toList := by
    by_cases hw : '\n' ∈ t.toList.takeWhile isJsSpace
    · rw [jsStripLeadingBlankLines_pos hw, toList_mk]
      obtain ⟨pre, hp⟩ := afterLastNewline_suffix (t.toList.takeWhile isJsSpace)
      refine ⟨pre, ?_⟩
      calc t.toList
          = t.toList.takeWhile isJsSpace ++ t.toList.dropWhile isJsSpace :=
            (List.takeWhile_append_dropWhile isJsSpace t.toList).symm
        _ = (pre ++ afterLastNewline (t.toList.takeWhile isJsSpace))
              ++ t.toList.dropWhile isJsSpace := by rw [← hp]
        _ = pre ++ (afterLastNewline (t.toList.takeWhile isJsSpace)
              ++ t.toList.dropWhile isJsSpace) := List.append_assoc _ _ _
    · rw [jsStripLeadingBlankLines_neg hw]
      exact ⟨[], rfl⟩
  have htri2 : noTripleNewline (jsStripLeadingBlankLines t).toList = true := by
    obtain ⟨pre, hp⟩ := hsuffix
    exact noTriple_append_right pre _ (hp ▸ htri)
  rw [jsCollapseNewlines_of_noTriple htri2]
  exact jsStripLeadingBlankLines_idem t



/-! ## Side-effect imports under pruning -/

theorem pruneNode_sideEffect_eq {u j : List String} (src : String) :
    ∀ h h2, pruneNode u j h = some h2 →
      ((h2 = Node.importDecl src []) ↔ (h = Node.importDecl src []))
  | .ident s ann, h2, hp => by
    simp only [pruneNode, Option.some.injEq] at hp
    subst hp; rfl
  | .jsxIdent s, h2, hp => by
    simp only [pruneNode, Option.some.injEq] at hp
    subst hp; rfl
  | .jsxMember o q, h2, hp => by
    simp only [pruneNode, Option.some.injEq] at hp
    subst hp; rfl
  | .importDecl src2 specs, h2, hp => by
    simp only [pruneNode] at hp
    split at hp
    · rename_i hemp
      simp only [Option.some.injEq] at hp
      subst hp; rfl
    · rename_i hemp
      split at hp
      · exact absurd hp (by simp)
      · rename_i hkept
        simp only [Option.some.injEq] at hp
        subst hp
        constructor
        · intro hc
          injection hc with e1 e2
          rw [e2] at hkept
          exact absurd rfl hkept
        · intro hc
          injection hc with e1 e2
          rw [e2] at hemp
          exact absurd rfl hemp
  | .tsTypeAnn cs, h2, hp => by
    simp only [pruneNode, Option.some.injEq] at hp
    subst hp; rfl
  | .tsInterfaceDeclaration s cs, h2, hp => by
    simp only [pruneNode, Option.some.injEq] at hp
    subst hp; rfl
  | .tsTypeAliasDeclaration s cs, h2, hp => by
    simp only [pruneNode, Option.some.injEq] at hp
    subst hp; rfl
  | .tsTypeParameterInstantiation cs, h2, hp => by
    simp only [pruneNode, Option.some.injEq] at hp
    subst hp; rfl
  | .tsAsExpression e ty, h2, hp => by
    simp only [pruneNode, Option.some.injEq] at hp
    subst hp; rfl
  | .tsNonNullExpression e, h2, hp => by
    simp only [pruneNode, Option.some.injEq] at hp
    subst hp; rfl
  | .other k cs, h2, hp => by
    simp only [pruneNode, Option.some.injEq] at hp
    subst hp
    constructor <;> intro hc <;> exact absurd hc (by simp)

theorem pruneNode_none_ne {u j : List String} (src : String) :
    ∀ h, pruneNode u j h = none → h ≠ Node.importDecl src []
  | .ident s ann, hp => by simp [pruneNode] at hp
  | .jsxIdent s, hp => by simp [pruneNode] at hp
  | .jsxMember o q, hp => by simp [pruneNode] at hp
  | .importDecl src2 specs, hp => by
    simp only [pruneNode] at hp
    split at hp
    · exact absurd hp (by simp)
    · rename_i hemp
      intro hc
      injection hc with e1 e2
      rw [e2] at hemp
      exact absurd rfl hemp
  | .tsTypeAnn cs, hp => by simp [pruneNode] at hp
  | .tsInterfaceDeclaration s cs, hp => by simp [pruneNode] at hp
  | .tsTypeAliasDeclaration s cs, hp => by simp [pruneNode] at hp
  | .tsTypeParameterInstantiation cs, hp => by simp [pruneNode] at hp
  | .tsAsExpression e ty, hp => by simp [pruneNode] at hp
  | .tsNonNullExpression e, hp => by simp [pruneNode] at hp
  | .other k cs, hp => by simp [pruneNode] at hp

theorem pruneList_sideEffect_mem {u j : List String} {src : String} :
    ∀ l, nlMem (Node.importDecl src []) (pruneList u j l) ↔
      nlMem (Node.importDecl src []) l
  | .nil => Iff.rfl
  | .cons h t => by
    cases hh : pruneNode u j h with
    | none =>
      have hne := pruneNode_none_ne src h hh
      simp only [pruneList, hh, nlMem]
      rw [pruneList_sideEffect_mem t]
      constructor
      · exact Or.inr
      · rintro (hc | hc)
        · exact absurd hc hne
        · exact hc
    | some h2 =>
      have heq := pruneNode_sideEffect_eq src h h2 hh
      simp only [pruneList, hh, nlMem]
      rw [pruneList_sideEffect_mem t]
      constructor
      · rintro (hc | hc)
        · exact Or.inl (heq.mp hc)
        · exact Or.inr hc
      · rintro (hc | hc)
        · exact Or.inl (heq.mpr hc)
        · exact Or.inr hc

/-! ## The claims -/

/-- Claim C1, counterexample: in `import React from "react"; <React/>;` the
default specifier `React` is dropped by `removeUnusedImports` (its whole
declaration is deleted), yet its local name occurs once outside any import
declaration of the erased input — in markup-tag position.  This refutes the
claim's unconditional "every dropped specifier's local name occurs zero
times outside import declarations in the erased input". -/
theorem stripTs_C1_counterexample :
    nlMem (.importDecl "react" [⟨.importDefaultSpecifier, "React"⟩]) scenarioReactTagOnly
    ∧ removeUnusedImportsAst scenarioReactTagOnly
        = nl1 (.other "ExpressionStatement"
            (nl1 (.other "JSXElement"
              (nl1 (.other "JSXOpeningElement" (nl1 (.jsxIdent "React")))))))
    ∧ "React" ∈ plainUsesList scenarioReactTagOnly ++ jsxUsesList scenarioReactTagOnly := by
  refine ⟨Or.inl rfl, rfl, ?_⟩
  decide

/-- Claim C1 (amended): after `removeUnusedImports`, a specifier is kept iff
`keepSpecifier` holds of its local name — membership in
`plainUses ∪ markupUses`, except that the default binding `React` needs a
plain use; a dropped specifier's local name occurs zero times outside import
declarations in the erased input unless it is that special `React` default
binding (which may still occur in markup-tag position); pruning preserves
both use sets, so every surviving name still occurs in the output; an import
declaration with survivors is rewritten in place with the survivors
in their original relative order, and one with no survivor is deleted. -/
theorem stripTs_C1 (p : NodeList) :
    (∀ s : ImportSpecifier,
      keepSpecifier (plainUsesList p) (jsxUsesList p) s = true ↔
        ((s.localName ∈ plainUsesList p ∨ s.localName ∈ jsxUsesList p) ∧
          ¬(s.kind = SpecifierKind.importDefaultSpecifier ∧ s.localName = "React" ∧
              s.localName ∉ plainUsesList p)))
    ∧ (∀ s : ImportSpecifier,
        keepSpecifier (plainUsesList p) (jsxUsesList p) s = false →
          (s.localName ∉ plainUsesList p ∧ s.localName ∉ jsxUsesList p) ∨
            (s.kind = SpecifierKind.importDefaultSpecifier ∧ s.localName = "React" ∧
              s.localName ∉ plainUsesList p))
    ∧ plainUsesList (removeUnusedImportsAst p) = plainUsesList p
    ∧ jsxUsesList (removeUnusedImportsAst p) = jsxUsesList p
    ∧ (∀ l r src specs, specs ≠ [] →
        p = nlApp l (.cons (.importDecl src specs) r) →
          removeUnusedImportsAst p
            = nlApp (pruneList (plainUsesList p) (jsxUsesList p) l)
                (if (specs.filter (keepSpecifier (plainUsesList p) (jsxUsesList p))).isEmpty
                 then pruneList (plainUsesList p) (jsxUsesList p) r
                 else .cons
                   (.importDecl src
                     (specs.filter (keepSpecifier (plainUsesList p) (jsxUsesList p))))
                   (pruneList (plainUsesList p) (jsxUsesList p) r)))
    ∧ (∀ specs : List ImportSpecifier,
        (specs.filter (keepSpecifier (plainUsesList p) (jsxUsesList p))).Sublist specs) := by
  refine ⟨keepSpecifier_iff _ _, fun s h => keepSpecifier_false _ _ s h,
    removeUnusedImportsAst_plainUses p, removeUnusedImportsAst_jsxUses p,
    ?_, fun specs => List.filter_sublist _⟩
  intro l r src specs hne hp
  have hemp : specs.isEmpty = false := by
    cases specs with
    | nil => exact absurd rfl hne
    | cons a t => rfl
  conv_lhs => rw [hp]
  unfold removeUnusedImportsAst
  rw [pruneList_nlApp]
  rw [← hp]
  congr 1
  set u := plainUsesList p
  set j := jsxUsesList p
  show pruneList u j (.cons (.importDecl src specs) r) = _
  by_cases hk : (specs.filter (keepSpecifier u j)).isEmpty = true
  · simp only [pruneList, pruneNode, hemp, hk, if_pos, if_neg, Bool.false_eq_true,
      if_false, if_true]
  · simp only [pruneList, pruneNode, hemp, Bool.false_eq_true, if_false, hk, if_true,
      Bool.not_eq_true]

/-- Claim C1 witness: the amended theorem applied to
`import {A,B} from "m"; console.log(A)` — `B` is dropped, `A` survives in
its place. -/
theorem stripTs_C1_witness :
    removeUnusedImportsAst scenarioImportAB
      = NodeList.cons (.importDecl "m" [⟨.importSpecifier, "A"⟩]) scenarioImportABRest := by
  have h := (stripTs_C1 scenarioImportAB).2.2.2.2.1 .nil scenarioImportABRest "m"
    [⟨.importSpecifier, "A"⟩, ⟨.importSpecifier, "B"⟩] (by decide) rfl
  rw [h]
  rfl

/-- Claim C2, counterexample: the vue-branch visitor set (lines 308-326) has
no `TSTypeParameterInstantiation` handler, so in a vue script section the
generic type-argument list of `useState<number>(5)` survives erasure
unchanged, while the ts/tsx branch (lines 217-239) deletes it; so erasure
does not delete generic type-argument lists in every supported dialect. -/
theorem stripTs_C2_counterexample :
    eraseListVue scenarioVueGenericInput = scenarioVueGenericInput
    ∧ noTSList scenarioVueGenericInput = false
    ∧ eraseList scenarioVueGenericInput = scenarioVueGenericStripped
    ∧ noTSList scenarioVueGenericStripped = true :=
  ⟨rfl, rfl, rfl, rfl⟩

/-- Claim C2 (amended): for the plain typed dialects (ts/tsx) erasure deletes
every erasure-relevant construct — interface declarations, type-alias
declarations, type annotations and generic type-argument lists — and the
scenario `interface U{name:string} function f(u:U):string{return u.name}` →
`function f(u){return u.name}` holds; the vue script path deletes the same
constructs except generic type-argument lists (its output contains no
annotation, interface, alias or assertion wrapper, and the interface and
assertion scenarios hold under it too), but it keeps generic type-argument
lists in place, erasing only inside them. -/
theorem stripTs_C2 :
    (∀ p, noTSList (eraseList p) = true)
    ∧ eraseList scenarioInterfaceInput = scenarioInterfaceOutput
    ∧ (∀ p, noTSVueList (eraseListVue p) = true)
    ∧ eraseListVue scenarioInterfaceInput = scenarioInterfaceOutput
    ∧ eraseListVue scenarioAssertInput = scenarioAssertOutput
    ∧ (∀ cs, eraseNodeVue (.tsTypeParameterInstantiation cs)
        = some (.tsTypeParameterInstantiation (eraseListVue cs))) :=
  ⟨eraseList_noTS, rfl, eraseListVue_noTSVue, rfl, rfl, fun _ => rfl⟩

/-- Claim C3: erasure replaces a type-assertion `x as T` and a non-null
assertion `x!` by the inner expression `x` (recursively erased, so an
untyped inner expression survives verbatim with all its children), and the
scenario `const x = (y as string).length; const z = w!;` →
`const x = y.length; const z = w;` holds. -/
theorem stripTs_C3 :
    (∀ e ty, eraseNode (.tsAsExpression e ty) = eraseNode e)
    ∧ (∀ e, eraseNode (.tsNonNullExpression e) = eraseNode e)
    ∧ (∀ e ty, noTSNode e = true →
        eraseNode (.tsAsExpression e ty) = some e
          ∧ eraseNode (.tsNonNullExpression e) = some e)
    ∧ eraseList scenarioAssertInput = scenarioAssertOutput :=
  ⟨fun _ _ => rfl, fun _ => rfl,
   fun e _ h => ⟨noTS_eraseNode_id e h, noTS_eraseNode_id e h⟩, rfl⟩

/-- Claim C3 witness: the replacement clauses applied to the concrete inner
expression `y` of the scenario. -/
theorem stripTs_C3_witness :
    noTSNode (identN "y") = true
    ∧ eraseNode (.tsAsExpression (identN "y") (nl1 (.other "TSStringKeyword" .nil)))
        = some (identN "y")
    ∧ eraseNode (.tsNonNullExpression (identN "y")) = some (identN "y") := by
  have h := stripTs_C3.2.2.1 (identN "y") (nl1 (.other "TSStringKeyword" .nil)) rfl
  exact ⟨rfl, h.1, h.2⟩

/-- Claim C4: the erase-and-prune pipeline is idempotent — a second pass over
the first pass's output changes nothing: tree-level erasure alone, the full
erase-then-prune pipeline, and the textual clean-up pair are all
idempotent. -/
theorem stripTs_C4 :
    (∀ p, eraseList (eraseList p) = eraseList p)
    ∧ (∀ p, eraseAndPruneAst (eraseAndPruneAst p) = eraseAndPruneAst p)
    ∧ (∀ s, cleanupText (cleanupText s) = cleanupText s) := by
  refine ⟨eraseList_idem, ?_, cleanupText_idem⟩
  intro p
  unfold eraseAndPruneAst
  have h1 : noTSList (removeUnusedImportsAst (eraseList p)) = true := by
    unfold removeUnusedImportsAst
    exact pruneList_noTS (eraseList p) (eraseList_noTS p)
  rw [noTS_eraseList_id _ h1, removeUnusedImportsAst_idem]

/-- Claim C5, counterexample: `"a\n\n\nb"` contains a run of exactly two
blank lines (three newline characters) and no leading blank line, so the
normalization described by the claim ("collapse runs of 3+ consecutive blank
lines") leaves it unchanged — but the code's regex `\n\x7b3,\x7d` collapses it to
one blank line.  `specCleanupText` follows the claim's words,
`cleanupText` the code. -/
theorem stripTs_C5_counterexample :
    cleanupText "a\n\n\nb" = "a\n\nb"
    ∧ specCleanupText "a\n\n\nb" = "a\n\n\nb"
    ∧ ("a\n\nb" : String) ≠ "a\n\n\nb" :=
  ⟨rfl, rfl, by decide⟩

/-- Claim C5 (amended): for inputs with zero erasure-relevant constructs the
erasure pass is the identity on the tree, and the clean-ups change nothing
beyond their two normalizations, whose real thresholds are: runs of 3+
consecutive newline characters (i.e. 2 or more blank lines) collapse to one
blank line, and the leading whitespace run is stripped up to and including
its last newline.  Inputs already in that normal form come back
byte-identical. -/
theorem stripTs_C5 :
    (∀ p, noTSList p = true → eraseList p = p)
    ∧ (∀ s : String, noTripleNewline s.toList = true → jsCollapseNewlines s = s)
    ∧ (∀ s : String, '\n' ∉ s.toList.takeWhile isJsSpace → jsStripLeadingBlankLines s = s)
    ∧ (∀ s : String, noTripleNewline s.toList = true →
        '\n' ∉ s.toList.takeWhile isJsSpace → cleanupText s = s) := by
  refine ⟨noTS_eraseList_id, fun s h => jsCollapseNewlines_of_noTriple h,
    fun s h => jsStripLeadingBlankLines_neg h, fun s h1 h2 => ?_⟩
  unfold cleanupText
  rw [jsCollapseNewlines_of_noTriple h1]
  exact jsStripLeadingBlankLines_neg h2

/-- Claim C5 witness: a construct-free tree is fixed by erasure and a
normal-form string is fixed by the clean-ups. -/
theorem stripTs_C5_witness :
    noTSList scenarioInterfaceOutput = true
    ∧ eraseList scenarioInterfaceOutput = scenarioInterfaceOutput
    ∧ noTripleNewline ("let x = 1\n\nlet y = 2" : String).toList = true
    ∧ '\n' ∉ ("let x = 1\n\nlet y = 2" : String).toList.takeWhile isJsSpace
    ∧ cleanupText "let x = 1\n\nlet y = 2" = "let x = 1\n\nlet y = 2" := by
  refine ⟨rfl, stripTs_C5.1 scenarioInterfaceOutput rfl, rfl, by decide, ?_⟩
  exact stripTs_C5.2.2.2 "let x = 1\n\nlet y = 2" rfl (by decide)

/-- Claim C6: with the markup (JSX) dialect, the default binding named
`React` is dropped whenever it has zero plain-identifier occurrences, even
when markup-tag uses exist for other names — the whole single-specifier
declaration is deleted; whereas a named or namespace import whose local name
occurs only in markup-tag position is kept. -/
theorem stripTs_C6 :
    (∀ (src : String) (rest : NodeList), "React" ∉ plainUsesList rest →
      removeUnusedImportsAst
          (.cons (.importDecl src [⟨.importDefaultSpecifier, "React"⟩]) rest)
        = pruneList (plainUsesList rest) (jsxUsesList rest) rest)
    ∧ (∀ (src name : String) (k : SpecifierKind) (rest : NodeList),
        (k = SpecifierKind.importSpecifier ∨ k = SpecifierKind.importNamespaceSpecifier) →
        name ∈ jsxUsesList rest →
          removeUnusedImportsAst (.cons (.importDecl src [⟨k, name⟩]) rest)
            = .cons (.importDecl src [⟨k, name⟩])
                (pruneList (plainUsesList rest) (jsxUsesList rest) rest)) := by
  constructor
  · intro src rest hu
    have huses : plainUsesList
        (NodeList.cons (.importDecl src [⟨.importDefaultSpecifier, "React"⟩]) rest)
        = plainUsesList rest := by
      simp [plainUsesList, plainUsesNode]
    have hjsx : jsxUsesList
        (NodeList.cons (.importDecl src [⟨.importDefaultSpecifier, "React"⟩]) rest)
        = jsxUsesList rest := by
      simp [jsxUsesList, jsxUsesNode]
    unfold removeUnusedImportsAst
    rw [huses, hjsx]
    have hkeep : keepSpecifier (plainUsesList rest) (jsxUsesList rest)
        ⟨.importDefaultSpecifier, "React"⟩ = false := by
      have : (plainUsesList rest).contains "React" = false := by
        simpa using hu
      simp [keepSpecifier, this]
      exact fun hmem => absurd hmem hu
    simp [pruneList, pruneNode, hkeep]
  · intro src name k rest hk hj
    have huses : plainUsesList (NodeList.cons (.importDecl src [⟨k, name⟩]) rest)
        = plainUsesList rest := by
      simp [plainUsesList, plainUsesNode]
    have hjsx : jsxUsesList (NodeList.cons (.importDecl src [⟨k, name⟩]) rest)
        = jsxUsesList rest := by
      simp [jsxUsesList, jsxUsesNode]
    unfold removeUnusedImportsAst
    rw [huses, hjsx]
    have hkeep : keepSpecifier (plainUsesList rest) (jsxUsesList rest) ⟨k, name⟩ = true := by
      have hcj : (jsxUsesList rest).contains name = true := by
        simpa using hj
      rcases hk with h | h <;> subst h <;> simp [keepSpecifier, hcj] <;> exact Or.inr hj
    simp [pruneList, pruneNode, hkeep]

/-- Claim C6 witness: with only `<Button/>` in the body, `import React from
"react"` is deleted while `import {Button} from "ui"` is kept. -/
theorem stripTs_C6_witness :
    removeUnusedImportsAst
        (.cons (.importDecl "react" [⟨.importDefaultSpecifier, "React"⟩]) scenarioButtonTag)
      = scenarioButtonTag
    ∧ removeUnusedImportsAst
        (.cons (.importDecl "ui" [⟨.importSpecifier, "Button"⟩]) scenarioButtonTag)
      = .cons (.importDecl "ui" [⟨.importSpecifier, "Button"⟩]) scenarioButtonTag := by
  constructor
  · have h := stripTs_C6.1 "react" scenarioButtonTag (by decide)
    rw [h]
    rfl
  · have h := stripTs_C6.2 "ui" "Button" SpecifierKind.importSpecifier scenarioButtonTag
      (Or.inl rfl) (by decide)
    rw [h]
    rfl

/-- Claim C7: a side-effect (zero-specifier) import declaration is present in
the output of `removeUnusedImports` iff it is present in the erased input,
independently of any usage analysis — the pruner returns such declarations
untouched. -/
theorem stripTs_C7 (p : NodeList) (src : String) :
    nlMem (.importDecl src []) (removeUnusedImportsAst p)
      ↔ nlMem (.importDecl src []) p := by
  unfold removeUnusedImportsAst
  exact pruneList_sideEffect_mem p

/-- Claim C7 witness: `import "./styles.css"` next to an unused import
survives pruning. -/
theorem stripTs_C7_witness :
    nlMem (.importDecl "./styles.css" [])
      (removeUnusedImportsAst
        (nl2 (.importDecl "./styles.css" [])
          (.importDecl "m" [⟨.importSpecifier, "A"⟩]))) :=
  (stripTs_C7 (nl2 (.importDecl "./styles.css" [])
      (.importDecl "m" [⟨.importSpecifier, "A"⟩])) "./styles.css").mpr (Or.inl rfl)

/-- Claim C8: for an unparsable input the ts/tsx entry point propagates the
ParseError of the parser itself (original location included) and produces no
output; for a parsable input it returns the complete pipeline result — by
construction there is no partially transformed text. -/
theorem stripTs_C8 (parse parsePrune : String → Except ParseError NodeList)
    (gen : NodeList → String) (resolved : Bool) (content : String) :
    (∀ e, parse content = .error e →
      stripTSFromStringTS parse gen parsePrune resolved content = .error e)
    ∧ (∀ ast, parse content = .ok ast →
        stripTSFromStringTS parse gen parsePrune resolved content
          = .ok (cleanupText (removeUnusedImportsStr parsePrune gen resolved
              (gen (eraseList ast))))) := by
  constructor <;> intro x hx <;> simp [stripTSFromStringTS, hx]

/-- Claim C8 witness: a parser failing at line 1, column 5 makes the entry
point raise exactly that error. -/
theorem stripTs_C8_witness :
    stripTSFromStringTS (fun _ => .error ⟨"Unexpected token", 1, 5⟩)
      (fun _ => "") (fun _ => .error ⟨"x", 0, 0⟩) true "const x: ="
      = .error ⟨"Unexpected token", 1, 5⟩ :=
  (stripTs_C8 (fun _ => .error ⟨"Unexpected token", 1, 5⟩) (fun _ => .error ⟨"x", 0, 0⟩)
    (fun _ => "") true "const x: =").1 ⟨"Unexpected token", 1, 5⟩ rfl

/-- Claim C9: a vue document whose script section carries no `lang="ts"`
marker is, without `forceStrip`, returned byte-identical by the string entry
point, and the file entry point returns the distinguished no-op value `none`
— returned exactly in that case, so a no-op is distinguishable from a
processed-but-identical result. -/
theorem stripTs_C9 (parseVue : String → SFCDescriptor) (process : String → String)
    (content : String) (force : Bool) :
    (sfcHasTs (parseVue content) = false →
      stripTSFromStringVue parseVue process content false = content)
    ∧ (stripTSFromFileVue parseVue process content force = none ↔
        (sfcHasTs (parseVue content) = false ∧ force = false)) := by
  constructor
  · intro h
    simp [stripTSFromStringVue, h]
  · unfold stripTSFromFileVue
    cases hts : sfcHasTs (parseVue content) <;> cases force <;> simp

/-- Claim C9 witness: a concrete SFC descriptor with a plain (`lang`-less)
script block, `forceStrip` off: the string result is the input itself and
the file result is `none`. -/
theorem stripTs_C9_witness :
    stripTSFromStringVue (fun _ => ⟨some ⟨none, "let x = 1"⟩, none⟩)
        (fun s => s ++ "!") "<template/><script>let x = 1</script>" false
      = "<template/><script>let x = 1</script>"
    ∧ stripTSFromFileVue (fun _ => ⟨some ⟨none, "let x = 1"⟩, none⟩)
        (fun s => s ++ "!") "<template/><script>let x = 1</script>" false = none := by
  have h := stripTs_C9 (fun _ => ⟨some ⟨none, "let x = 1"⟩, none⟩) (fun s => s ++ "!")
    "<template/><script>let x = 1</script>" false
  exact ⟨h.1 rfl, h.2.mpr ⟨rfl, rfl⟩⟩

/-- Claim C10: the import pruner never raises — if the Babel helpers cannot
be resolved, or the pruner's own parse of the erased text fails, it returns
its input unchanged; and in that case the combined erase-and-prune entry
point returns the unpruned erased output (cleaned up) instead of failing. -/
theorem stripTs_C10 (parse parsePrune : String → Except ParseError NodeList)
    (gen : NodeList → String) (resolved : Bool) (code content : String) :
    (resolved = false → removeUnusedImportsStr parsePrune gen resolved code = code)
    ∧ (∀ e, parsePrune code = .error e →
        removeUnusedImportsStr parsePrune gen resolved code = code)
    ∧ (∀ ast e, parse content = .ok ast →
        parsePrune (gen (eraseList ast)) = .error e →
          stripTSFromStringTS parse gen parsePrune resolved content
            = .ok (cleanupText (gen (eraseList ast)))) := by
  refine ⟨?_, ?_, ?_⟩
  · intro h
    simp [removeUnusedImportsStr, h]
  · intro e he
    cases resolved <;> simp [removeUnusedImportsStr, he]
  · intro ast e hok he
    cases resolved <;> simp [stripTSFromStringTS, removeUnusedImportsStr, hok, he]

/-- Claim C10 witness: a pruner whose parse fails at line 2, column 1
returns its input text unchanged. -/
theorem stripTs_C10_witness :
    removeUnusedImportsStr (fun _ => .error ⟨"Unexpected token", 2, 1⟩)
      (fun _ => "g") true "const x = =" = "const x = =" :=
  (stripTs_C10 (fun _ => .ok .nil) (fun _ => .error ⟨"Unexpected token", 2, 1⟩)
    (fun _ => "g") true "const x = =" "x").2.1 ⟨"Unexpected token", 2, 1⟩ rfl
